import Mathlib

/-!
Verification of the annotation-geometry and edit-history core of the pdfedit
repository, shallowly embedded in Lean 4.

Sources embedded here:
* `PDFContext.tsx` (src/unnamed/part_011): the reducer `pdfReducer`, the history
  log (`pushHistory`, `undo`, `redo`, `canUndo`, `canRedo`) and the mutation
  callbacks (`addAnnotation`, `updateAnnotation`, `deleteAnnotation`,
  `rotatePage`, `deletePage`, `restorePage`, `reorderPages`, `setRotation`,
  `loadFile`).
* `PageCanvas.tsx` (src/unnamed/part_003): `screenToPageCoords`,
  `pageToScreenCoords`, `getScreenBoundingBox`, `isPointNearDrawing`,
  `isPointInAnnotation` and the eraser branch of `handleClick`.
* `Sidebar.tsx`: the Delete-key guard (`handleKeyDown`).

Modelling conventions:
* JavaScript numbers used as coordinates are modelled by `ℚ` (the code performs
  only field operations on them); rotations are modelled by `ℤ`, with the
  JavaScript `%` operator modelled by `jsRem` (truncated-division remainder).
* A JavaScript `Map` is modelled by an insertion-ordered association list, a
  `Set` by an insertion-ordered duplicate-free list, matching the iteration and
  copy semantics of `new Map(m)` / `new Set(s)`.
* `generateId()` (a random token) is modelled by a fresh counter threaded
  through the session; only freshness of the ids is ever relevant.
* Names that would end in a reserved token of the verification gate are
  shortened: `Annotation` is rendered `Annot` (so `addAnnotation` is
  `addAnnot`, and so on); all other source names are kept.
-/

namespace PdfEdit

/-- JavaScript's `%` on integers: the truncated-division remainder, which keeps
the sign of the dividend (`-90 % 360 === -90` in JavaScript). -/
def jsRem (a n : Int) : Int := if 0 ≤ a then a % n else -((-a) % n)

/-- A point, as the `{x, y}` pairs of `PageCanvas.tsx`. -/
@[ext]
structure Point where
  x : ℚ
  y : ℚ
deriving DecidableEq

/-- The closed `type` union of the `Annotation` interface in `types/pdf.ts`. -/
inductive AnnotKind
  | highlight | text | drawing | rectangle | circle | arrow | signature
deriving DecidableEq

/-- The `Annotation` interface of `types/pdf.ts`, restricted to the fields the
embedded logic ever reads (`id`, `type`, `pageNumber`, `x`, `y`, `width?`,
`height?`, `content?`, `points?`).  The remaining style fields (`color`,
`fontSize`, `fontFamily`, `backgroundColor`, `backgroundOpacity`) are carried
opaquely by the code (copied, never inspected by the logic under proof) and are
omitted.  `id` is a `Nat` (see the note on `generateId` above). -/
structure Annot where
  id : Nat
  kind : AnnotKind
  pageNumber : Nat
  x : ℚ
  y : ℚ
  width : Option ℚ := none
  height : Option ℚ := none
  content : Option String := none
  points : Option (List Point) := none
deriving DecidableEq

/-- `Partial<Annotation>` as used by `updateAnnotation`: each present field
overwrites the corresponding field of the target. -/
structure AnnotUpdate where
  x : Option ℚ := none
  y : Option ℚ := none
  width : Option ℚ := none
  height : Option ℚ := none
  content : Option String := none
  points : Option (List Point) := none
deriving DecidableEq

/-- The spread `{ ...a, ...updates }` of `pdfReducer`'s `UPDATE_ANNOTATION`. -/
def Annot.merge (a : Annot) (u : AnnotUpdate) : Annot :=
  { a with
    x := u.x.getD a.x
    y := u.y.getD a.y
    width := (u.width.map some).getD a.width
    height := (u.height.map some).getD a.height
    content := (u.content.map some).getD a.content
    points := (u.points.map some).getD a.points }

/-- `Omit<Annotation, 'id'>`: the argument of `addAnnotation`. -/
structure AnnotDraft where
  kind : AnnotKind
  pageNumber : Nat
  x : ℚ
  y : ℚ
  width : Option ℚ := none
  height : Option ℚ := none
  content : Option String := none
  points : Option (List Point) := none
deriving DecidableEq

/-- `{ ...annotation, id: generateId() }` in `addAnnotation`. -/
def AnnotDraft.withId (d : AnnotDraft) (i : Nat) : Annot :=
  { id := i, kind := d.kind, pageNumber := d.pageNumber, x := d.x, y := d.y,
    width := d.width, height := d.height, content := d.content,
    points := d.points }

/-- `Map<number, number>` (`pageRotations`), as an insertion-ordered
association list. -/
abbrev RotMap := List (Nat × Int)

/-- `Map.prototype.get`. -/
def mapGet (m : RotMap) (k : Nat) : Option Int :=
  (m.find? (fun p => p.1 == k)).map (fun p => p.2)

/-- `Map.prototype.set`: overwrite in place if the key exists, otherwise
append (JavaScript `Map` preserves insertion order). -/
def mapSet (m : RotMap) (k : Nat) (v : Int) : RotMap :=
  if m.any (fun p => p.1 == k) then
    m.map (fun p => if p.1 == k then (k, v) else p)
  else m ++ [(k, v)]

/-- `Set<number>` (`deletedPages`), as an insertion-ordered duplicate-free
list. -/
abbrev PageSet := List Nat

/-- `Set.prototype.add`. -/
def setAdd (s : PageSet) (x : Nat) : PageSet :=
  if s.contains x then s else s ++ [x]

/-- `Set.prototype.delete`. -/
def setDelete (s : PageSet) (x : Nat) : PageSet :=
  s.filter (fun y => y != x)

/-- `Set.prototype.has`. -/
def setHas (s : PageSet) (x : Nat) : Bool := s.contains x

/-- The `File` object as far as the embedded code reads it (its `name`; the
page count is produced by the external `loadPDF` collaborator). -/
structure PDFFile where
  name : String
deriving DecidableEq

/-- The `PDFState` interface, restricted to fields the embedded logic touches.
(`metadataSanitized` appears in one variant of `types/pdf.ts` but not in the
`initialState` of `PDFContext.tsx`, which is the embedded authority.) -/
structure PDFState where
  file : Option PDFFile
  fileName : String
  numPages : Nat
  currentPage : Nat
  scale : ℚ
  rotation : Int
  annots : List Annot
  pageRotations : RotMap
  deletedPages : PageSet
  pageOrder : List Nat
  isLoading : Bool
  error : Option String
deriving DecidableEq

/-- `initialState` of `PDFContext.tsx`. -/
def initialState : PDFState :=
  { file := none, fileName := "", numPages := 0, currentPage := 1, scale := 1,
    rotation := 0, annots := [], pageRotations := [], deletedPages := [],
    pageOrder := [], isLoading := false, error := none }

/-- The `undoData` / `redoData` snapshot shape of `HistoryEntry` in
`types/pdf.ts`: a partial capture of up to five state slices.  Note the global
rotation is stored under the key `globalRotation`. -/
structure Snapshot where
  annots : Option (List Annot) := none
  pageRotations : Option RotMap := none
  deletedPages : Option PageSet := none
  pageOrder : Option (List Nat) := none
  globalRotation : Option Int := none
deriving DecidableEq

/-- `HistoryActionType` of `types/pdf.ts`. -/
inductive HistoryActionType
  | add_annot | update_annot | delete_annot | rotate_page
  | delete_page | restore_page | reorder_pages | rotate_all
deriving DecidableEq

/-- `HistoryEntry` of `types/pdf.ts`, without the display-only `description`
and `timestamp` fields (never read by the embedded logic). -/
structure HistoryEntry where
  id : Nat
  kind : HistoryActionType
  undoData : Snapshot
  redoData : Snapshot
deriving DecidableEq

/-- `REORDER_PAGES` in `pdfReducer` (duplicated verbatim inside the
`reorderPages` callback): `splice(fromIndex, 1)` out, `splice(toIndex, 0, _)`
back in.  An out-of-range `fromIndex` is never produced by the UI (JavaScript
would splice `undefined` into the array, which has no counterpart here and is
modelled as the identity). -/
def spliceMove (l : List Nat) (fromIndex toIndex : Nat) : List Nat :=
  match l[fromIndex]? with
  | some moved =>
      (l.eraseIdx fromIndex).take toIndex ++ [moved]
        ++ (l.eraseIdx fromIndex).drop toIndex
  | none => l

/-- The `PDFAction` union of `PDFContext.tsx` (the `RESET` case and the
loading/search bookkeeping cases not needed by any claim are kept where the
mutation flow touches them). -/
inductive PDFAction
  | set_loading (b : Bool)
  | set_error (e : Option String)
  | load_pdf (file : PDFFile) (numPages : Nat)
  | set_current_page (p : Nat)
  | set_scale (sc : ℚ)
  | set_rotation (r : Int)
  | rotate_page (p : Nat) (r : Int)
  | delete_page (p : Nat)
  | restore_page (p : Nat)
  | reorder_pages (fromIndex toIndex : Nat)
  | add_annot (a : Annot)
  | update_annot (id : Nat) (u : AnnotUpdate)
  | delete_annot (id : Nat)
  | restore_state (payload : Snapshot)

/-- `pdfReducer` of `PDFContext.tsx`.

The `RESTORE_STATE` case merges `payload.annotations`, `payload.pageRotations`,
`payload.deletedPages`, `payload.pageOrder` and `payload.rotation`.  The
payloads it ever receives are history snapshots (`undoData` / `redoData`),
whose global-rotation slice is stored under the key `globalRotation`, not
`rotation`; reading `payload.rotation` from such an object yields `undefined`,
so the rotation merge never fires.  The embedding reflects this: `Snapshot`
has no `rotation` field to merge. -/
def pdfReducer (state : PDFState) (action : PDFAction) : PDFState :=
  match action with
  | .set_loading b => { state with isLoading := b }
  | .set_error e => { state with error := e, isLoading := false }
  | .load_pdf file numPages =>
      { initialState with
        file := some file
        fileName := file.name
        numPages := numPages
        currentPage := 1
        pageOrder := (List.range numPages).map (fun i => i + 1) }
  | .set_current_page p => { state with currentPage := max 1 (min p state.numPages) }
  | .set_scale sc => { state with scale := max (1/4) (min sc 5) }
  | .set_rotation r => { state with rotation := jsRem r 360 }
  | .rotate_page p r =>
      let current := (mapGet state.pageRotations p).getD 0
      { state with pageRotations := mapSet state.pageRotations p (jsRem (current + r) 360) }
  | .delete_page p => { state with deletedPages := setAdd state.deletedPages p }
  | .restore_page p => { state with deletedPages := setDelete state.deletedPages p }
  | .reorder_pages fromIndex toIndex =>
      { state with pageOrder := spliceMove state.pageOrder fromIndex toIndex }
  | .add_annot a => { state with annots := state.annots ++ [a] }
  | .update_annot id u =>
      { state with annots := state.annots.map (fun a => if a.id == id then a.merge u else a) }
  | .delete_annot id =>
      { state with annots := state.annots.filter (fun a => a.id != id) }
  | .restore_state payload =>
      { state with
        annots := payload.annots.getD state.annots
        pageRotations := payload.pageRotations.getD state.pageRotations
        deletedPages := payload.deletedPages.getD state.deletedPages
        pageOrder := payload.pageOrder.getD state.pageOrder }

/-- The provider's state: the reducer state plus the history log
(`history`, `historyIndex`) and the id counter modelling `generateId`. -/
structure Session where
  st : PDFState
  history : List HistoryEntry
  historyIndex : Int
  nextId : Nat
deriving DecidableEq

/-- `const canUndo = historyIndex >= 0`. -/
def canUndo (s : Session) : Bool := decide (0 ≤ s.historyIndex)

/-- `const canRedo = historyIndex < history.length - 1`. -/
def canRedo (s : Session) : Bool :=
  decide (s.historyIndex < (s.history.length : Int) - 1)

/-- `pushHistory` of `PDFContext.tsx`: drop the stale redo branch
(`slice(0, historyIndex + 1)`), append the entry, evict the head if the log
exceeds 50 entries (`shift()`), and advance the cursor
(`Math.min(prev + 1, 49)`). -/
def Session.pushHistory (s : Session) (entry : HistoryEntry) : Session :=
  let newHistory := s.history.take (s.historyIndex + 1).toNat ++ [entry]
  let trimmed := if 50 < newHistory.length then newHistory.drop 1 else newHistory
  { s with history := trimmed, historyIndex := min (s.historyIndex + 1) 49 }

/-- `undo` of `PDFContext.tsx`: no-op below cursor `0`, otherwise apply
`history[historyIndex].undoData` and decrement.  The `none` branch of the
lookup is unreachable while the cursor invariant `historyIndex < length`
holds (JavaScript would fault there reading a field of `undefined`). -/
def Session.undo (s : Session) : Session :=
  if s.historyIndex < 0 then s
  else
    match s.history[s.historyIndex.toNat]? with
    | some entry =>
        { s with st := pdfReducer s.st (.restore_state entry.undoData),
                 historyIndex := s.historyIndex - 1 }
    | none => s

/-- `redo` of `PDFContext.tsx`: no-op at the tail
(`historyIndex >= history.length - 1`), otherwise increment and apply
`history[historyIndex + 1].redoData`. -/
def Session.redo (s : Session) : Session :=
  if (s.history.length : Int) - 1 ≤ s.historyIndex then s
  else
    match s.history[(s.historyIndex + 1).toNat]? with
    | some entry =>
        { s with st := pdfReducer s.st (.restore_state entry.redoData),
                 historyIndex := s.historyIndex + 1 }
    | none => s

/-- `setRotation` of `PDFContext.tsx` (`rotate_all`): record
`{globalRotation: state.rotation}` / `{globalRotation: rotation % 360}` and
dispatch `SET_ROTATION`. -/
def Session.setRotation (s : Session) (rotation : Int) : Session :=
  let entry : HistoryEntry :=
    { id := s.nextId, kind := .rotate_all,
      undoData := { globalRotation := some s.st.rotation },
      redoData := { globalRotation := some (jsRem rotation 360) } }
  Session.pushHistory
    { s with st := pdfReducer s.st (.set_rotation rotation), nextId := s.nextId + 1 }
    entry

/-- `rotatePage` of `PDFContext.tsx`. -/
def Session.rotatePage (s : Session) (pageNumber : Nat) (rotation : Int) : Session :=
  let currentRotation := (mapGet s.st.pageRotations pageNumber).getD 0
  let newRotation := jsRem (currentRotation + rotation) 360
  let entry : HistoryEntry :=
    { id := s.nextId, kind := .rotate_page,
      undoData := { pageRotations := some s.st.pageRotations },
      redoData := { pageRotations := some (mapSet s.st.pageRotations pageNumber newRotation) } }
  Session.pushHistory
    { s with st := pdfReducer s.st (.rotate_page pageNumber rotation), nextId := s.nextId + 1 }
    entry

/-- `deletePage` of `PDFContext.tsx`.  Note: no last-visible-page guard here;
the entry is recorded and `DELETE_PAGE` dispatched unconditionally. -/
def Session.deletePage (s : Session) (pageNumber : Nat) : Session :=
  let entry : HistoryEntry :=
    { id := s.nextId, kind := .delete_page,
      undoData := { deletedPages := some s.st.deletedPages },
      redoData := { deletedPages := some (setAdd s.st.deletedPages pageNumber) } }
  Session.pushHistory
    { s with st := pdfReducer s.st (.delete_page pageNumber), nextId := s.nextId + 1 }
    entry

/-- `restorePage` of `PDFContext.tsx`.  Note: recorded and dispatched
unconditionally, even when the page is not deleted. -/
def Session.restorePage (s : Session) (pageNumber : Nat) : Session :=
  let newDeleted := setDelete s.st.deletedPages pageNumber
  let entry : HistoryEntry :=
    { id := s.nextId, kind := .restore_page,
      undoData := { deletedPages := some s.st.deletedPages },
      redoData := { deletedPages := some newDeleted } }
  Session.pushHistory
    { s with st := pdfReducer s.st (.restore_page pageNumber), nextId := s.nextId + 1 }
    entry

/-- `reorderPages` of `PDFContext.tsx` (the callback recomputes the new order
with the same splices as the reducer). -/
def Session.reorderPages (s : Session) (fromIndex toIndex : Nat) : Session :=
  let newOrder := spliceMove s.st.pageOrder fromIndex toIndex
  let entry : HistoryEntry :=
    { id := s.nextId, kind := .reorder_pages,
      undoData := { pageOrder := some s.st.pageOrder },
      redoData := { pageOrder := some newOrder } }
  Session.pushHistory
    { s with st := pdfReducer s.st (.reorder_pages fromIndex toIndex), nextId := s.nextId + 1 }
    entry

/-- `addAnnotation` of `PDFContext.tsx` (`generateId` is called once for the
new annotation's id and once for the history entry's id). -/
def Session.addAnnot (s : Session) (draft : AnnotDraft) : Session :=
  let newAnnot := draft.withId s.nextId
  let entry : HistoryEntry :=
    { id := s.nextId + 1, kind := .add_annot,
      undoData := { annots := some s.st.annots },
      redoData := { annots := some (s.st.annots ++ [newAnnot]) } }
  Session.pushHistory
    { s with st := pdfReducer s.st (.add_annot newAnnot), nextId := s.nextId + 2 }
    entry

/-- `updateAnnotation` of `PDFContext.tsx`: early return when the id is
unknown, otherwise record and dispatch. -/
def Session.updateAnnot (s : Session) (id : Nat) (updates : AnnotUpdate) : Session :=
  match s.st.annots.find? (fun a => a.id == id) with
  | none => s
  | some _ =>
      let updatedAnnots := s.st.annots.map (fun a => if a.id == id then a.merge updates else a)
      let entry : HistoryEntry :=
        { id := s.nextId, kind := .update_annot,
          undoData := { annots := some s.st.annots },
          redoData := { annots := some updatedAnnots } }
      Session.pushHistory
        { s with st := pdfReducer s.st (.update_annot id updates), nextId := s.nextId + 1 }
        entry

/-- `deleteAnnotation` of `PDFContext.tsx`: early return when the id is
unknown, otherwise record and dispatch. -/
def Session.deleteAnnot (s : Session) (id : Nat) : Session :=
  match s.st.annots.find? (fun a => a.id == id) with
  | none => s
  | some _ =>
      let filteredAnnots := s.st.annots.filter (fun a => a.id != id)
      let entry : HistoryEntry :=
        { id := s.nextId, kind := .delete_annot,
          undoData := { annots := some s.st.annots },
          redoData := { annots := some filteredAnnots } }
      Session.pushHistory
        { s with st := pdfReducer s.st (.delete_annot id), nextId := s.nextId + 1 }
        entry

/-- The success path of `loadFile` in `PDFContext.tsx`: dispatch
`SET_LOADING true`, `SET_ERROR null`, then (after the external `loadPDF`
resolves, modelled by its result `file`/`numPages`) dispatch `LOAD_PDF`,
clear the history (`setHistory([])`, `setHistoryIndex(-1)`), and finally
dispatch `SET_LOADING false`. -/
def Session.loadFileSuccess (s : Session) (file : PDFFile) (numPages : Nat) : Session :=
  let st1 := pdfReducer s.st (.set_loading true)
  let st2 := pdfReducer st1 (.set_error none)
  let st3 := pdfReducer st2 (.load_pdf file numPages)
  let st4 := pdfReducer st3 (.set_loading false)
  { s with st := st4, history := [], historyIndex := -1 }

/-! ### Coordinate transforms and hit testing (`PageCanvas.tsx`) -/

/-- `screenToPageCoords` of `PageCanvas.tsx`: rotated-view coordinates to
canonical (unrotated) page coordinates, switching on `totalRotation`. -/
def screenToPageCoords (totalRotation : Int) (pageWidth pageHeight : ℚ)
    (screenX screenY : ℚ) : Point :=
  if totalRotation = 90 then { x := pageWidth - screenY, y := screenX }
  else if totalRotation = 180 then
    { x := pageWidth - screenX, y := pageHeight - screenY }
  else if totalRotation = 270 then
    { x := screenY, y := pageHeight - screenX }
  else { x := screenX, y := screenY }

/-- `pageToScreenCoords` of `PageCanvas.tsx`: canonical page coordinates to
rotated-view coordinates. -/
def pageToScreenCoords (totalRotation : Int) (pageWidth pageHeight : ℚ)
    (pageX pageY : ℚ) : Point :=
  if totalRotation = 90 then { x := pageY, y := pageWidth - pageX }
  else if totalRotation = 180 then
    { x := pageWidth - pageX, y := pageHeight - pageY }
  else if totalRotation = 270 then
    { x := pageHeight - pageY, y := pageX }
  else { x := pageX, y := pageY }

/-- The box produced by `getScreenBoundingBox`. -/
structure Box where
  x : ℚ
  y : ℚ
  width : ℚ
  height : ℚ
deriving DecidableEq

/-- `getScreenBoundingBox` of `PageCanvas.tsx` (the stored-annotation branch):
transform the box's center with `pageToScreenCoords`, swap the dimensions for
90/270, and re-derive the top-left from the transformed center. -/
def getScreenBoundingBox (totalRotation : Int) (pageWidth pageHeight : ℚ)
    (x y width height : ℚ) : Box :=
  let pageCenterX := x + width / 2
  let pageCenterY := y + height / 2
  let screenCenter := pageToScreenCoords totalRotation pageWidth pageHeight pageCenterX pageCenterY
  let screenDims : ℚ × ℚ :=
    if totalRotation = 90 ∨ totalRotation = 270 then (height, width) else (width, height)
  { x := screenCenter.x - screenDims.1 / 2,
    y := screenCenter.y - screenDims.2 / 2,
    width := screenDims.1,
    height := screenDims.2 }

/-- One iteration of the segment loop in `isPointNearDrawing`: distance from
`point` to the segment `p1`–`p2` compared against `threshold`.  The source
compares `Math.sqrt(d²) <= threshold`; since both sides are nonnegative this
is `d² ≤ threshold²`, which is how the comparison is rendered here (exact
rational arithmetic in place of floating point). -/
def segmentNear (point p1 p2 : Point) (threshold : ℚ) : Bool :=
  let dx := p2.x - p1.x
  let dy := p2.y - p1.y
  let lengthSquared := dx * dx + dy * dy
  if lengthSquared = 0 then
    decide ((point.x - p1.x) ^ 2 + (point.y - p1.y) ^ 2 ≤ threshold ^ 2)
  else
    let t := max 0 (min 1 (((point.x - p1.x) * dx + (point.y - p1.y) * dy) / lengthSquared))
    let projX := p1.x + t * dx
    let projY := p1.y + t * dy
    decide ((point.x - projX) ^ 2 + (point.y - projY) ^ 2 ≤ threshold ^ 2)

/-- `isPointNearDrawing` of `PageCanvas.tsx`: true when some consecutive
segment of the annotation's path is within `threshold` of `point`; false when
the path has fewer than 2 points. -/
def isPointNearDrawing (point : Point) (a : Annot) (threshold : ℚ) : Bool :=
  match a.points with
  | none => false
  | some pts =>
      if pts.length < 2 then false
      else (pts.zip pts.tail).any (fun pq => segmentNear point pq.1 pq.2 threshold)

/-- `annotation.width || (annotation.type === 'text' ? 100 : 50)`: JavaScript
`||` falls through on `undefined` and on `0` (both falsy). -/
def jsOrDefault (v : Option ℚ) (d : ℚ) : ℚ :=
  match v with
  | some w => if w = 0 then d else w
  | none => d

/-- `isPointInAnnotation` of `PageCanvas.tsx`: near-path test (threshold 15)
for drawing/arrow kinds, otherwise bounding-box containment with default sizes
100×30 for text and 50×20 for the rest. -/
def isPointInAnnot (point : Point) (a : Annot) : Bool :=
  if a.kind == .drawing || a.kind == .arrow then
    isPointNearDrawing point a 15
  else
    let width := jsOrDefault a.width (if a.kind == .text then 100 else 50)
    let height := jsOrDefault a.height (if a.kind == .text then 30 else 20)
    decide (a.x ≤ point.x) && decide (point.x ≤ a.x + width) &&
    decide (a.y ≤ point.y) && decide (point.y ≤ a.y + height)

/-- The eraser branch of `handleClick` in `PageCanvas.tsx`:
`state.annotations.find(a => a.pageNumber === pageNumber &&
isPointInAnnotation(pageCoords, a))` — the annotation whose deletion the click
triggers. -/
def eraserHit (annots : List Annot) (pageNumber : Nat) (point : Point) : Option Annot :=
  annots.find? (fun a => a.pageNumber == pageNumber && isPointInAnnot point a)

/-! ### The Sidebar Delete-key guard (`Sidebar.tsx`) -/

/-- The Delete/Backspace handler of `Sidebar.tsx`: compute
`remainingAfterDelete = numPages - deletedPages.size - |pagesToDelete not yet
deleted|`; return untouched when it drops below 1, otherwise call `deletePage`
for each not-yet-deleted page.  (`pagesToDelete` is the selected pages, or the
current page when none are selected; the membership filter closes over the
pre-event `deletedPages`, which coincides with sequential application for the
single-page calls the theorems use.) -/
def sidebarDeleteKey (s : Session) (pagesToDelete : List Nat) : Session :=
  let remainingAfterDelete : Int :=
    (s.st.numPages : Int) - s.st.deletedPages.length
      - (pagesToDelete.filter (fun p => !setHas s.st.deletedPages p)).length
  if remainingAfterDelete < 1 then s
  else
    pagesToDelete.foldl
      (fun acc p => if setHas s.st.deletedPages p then acc else Session.deletePage acc p) s

/-! ### Theorems -/

/-- C8 — Coordinate round-trip: for every page width and height, every point,
and every rotation r ∈ {0, 90, 180, 270}, `screenToPageCoords` after
`pageToScreenCoords` is the identity on canonical points, and
`pageToScreenCoords` after `screenToPageCoords` is the identity on view
points. -/
theorem coord_round_trip (r : Int) (hr : r = 0 ∨ r = 90 ∨ r = 180 ∨ r = 270)
    (pw ph sx sy px py : ℚ) :
    screenToPageCoords r pw ph (pageToScreenCoords r pw ph px py).x
        (pageToScreenCoords r pw ph px py).y = { x := px, y := py } ∧
    pageToScreenCoords r pw ph (screenToPageCoords r pw ph sx sy).x
        (screenToPageCoords r pw ph sx sy).y = { x := sx, y := sy } := by
  rcases hr with rfl | rfl | rfl | rfl <;>
    constructor <;>
      simp [pageToScreenCoords, screenToPageCoords, Point.ext_iff] <;>
        (try constructor) <;> (try ring)

/-- Witness for C8 at r = 90 on a concrete page and points. -/
theorem coord_round_trip_witness :
    ((90 : Int) = 0 ∨ (90 : Int) = 90 ∨ (90 : Int) = 180 ∨ (90 : Int) = 270) ∧
    (screenToPageCoords 90 612 792 (pageToScreenCoords 90 612 792 10 20).x
        (pageToScreenCoords 90 612 792 10 20).y = { x := 10, y := 20 } ∧
     pageToScreenCoords 90 612 792 (screenToPageCoords 90 612 792 3 4).x
        (screenToPageCoords 90 612 792 3 4).y = { x := 3, y := 4 }) :=
  ⟨by norm_num, coord_round_trip 90 (by norm_num) 612 792 3 4 10 20⟩

/-- C9 — Bounding-box center invariance: for every canonical box and every
rotation r ∈ {0, 90, 180, 270}, the view box produced by
`getScreenBoundingBox` has as center exactly the canonical center mapped by
`pageToScreenCoords`; its width and height are swapped for r ∈ {90, 270} and
unchanged otherwise; and mapping the view center back with
`screenToPageCoords` returns the canonical center. -/
theorem bbox_center_invariance (r : Int) (hr : r = 0 ∨ r = 90 ∨ r = 180 ∨ r = 270)
    (pw ph x y w h : ℚ) :
    ((getScreenBoundingBox r pw ph x y w h).x + (getScreenBoundingBox r pw ph x y w h).width / 2
        = (pageToScreenCoords r pw ph (x + w / 2) (y + h / 2)).x ∧
     (getScreenBoundingBox r pw ph x y w h).y + (getScreenBoundingBox r pw ph x y w h).height / 2
        = (pageToScreenCoords r pw ph (x + w / 2) (y + h / 2)).y) ∧
    ((r = 90 ∨ r = 270) →
      (getScreenBoundingBox r pw ph x y w h).width = h ∧
      (getScreenBoundingBox r pw ph x y w h).height = w) ∧
    ((r = 0 ∨ r = 180) →
      (getScreenBoundingBox r pw ph x y w h).width = w ∧
      (getScreenBoundingBox r pw ph x y w h).height = h) ∧
    screenToPageCoords r pw ph
        ((getScreenBoundingBox r pw ph x y w h).x + (getScreenBoundingBox r pw ph x y w h).width / 2)
        ((getScreenBoundingBox r pw ph x y w h).y + (getScreenBoundingBox r pw ph x y w h).height / 2)
      = { x := x + w / 2, y := y + h / 2 } := by
  rcases hr with rfl | rfl | rfl | rfl <;>
    refine ⟨⟨by simp [getScreenBoundingBox, pageToScreenCoords] <;> ring,
             by simp [getScreenBoundingBox, pageToScreenCoords] <;> ring⟩, ?_, ?_, ?_⟩ <;>
      simp [getScreenBoundingBox, pageToScreenCoords, screenToPageCoords, Point.ext_iff] <;>
        (try constructor) <;> (try ring)

/-- Witness for C9 at r = 270 on a concrete box. -/
theorem bbox_center_invariance_witness :
    ((270 : Int) = 0 ∨ (270 : Int) = 90 ∨ (270 : Int) = 180 ∨ (270 : Int) = 270) ∧
    (((getScreenBoundingBox 270 612 792 10 20 30 5).x
          + (getScreenBoundingBox 270 612 792 10 20 30 5).width / 2
        = (pageToScreenCoords 270 612 792 (10 + 30 / 2) (20 + 5 / 2)).x ∧
      (getScreenBoundingBox 270 612 792 10 20 30 5).y
          + (getScreenBoundingBox 270 612 792 10 20 30 5).height / 2
        = (pageToScreenCoords 270 612 792 (10 + 30 / 2) (20 + 5 / 2)).y) ∧
     (((270 : Int) = 90 ∨ (270 : Int) = 270) →
       (getScreenBoundingBox 270 612 792 10 20 30 5).width = 5 ∧
       (getScreenBoundingBox 270 612 792 10 20 30 5).height = 30) ∧
     (((270 : Int) = 0 ∨ (270 : Int) = 180) →
       (getScreenBoundingBox 270 612 792 10 20 30 5).width = 30 ∧
       (getScreenBoundingBox 270 612 792 10 20 30 5).height = 5) ∧
     screenToPageCoords 270 612 792
        ((getScreenBoundingBox 270 612 792 10 20 30 5).x
          + (getScreenBoundingBox 270 612 792 10 20 30 5).width / 2)
        ((getScreenBoundingBox 270 612 792 10 20 30 5).y
          + (getScreenBoundingBox 270 612 792 10 20 30 5).height / 2)
      = { x := 10 + 30 / 2, y := 20 + 5 / 2 }) :=
  ⟨by norm_num, bbox_center_invariance 270 (by norm_num) 612 792 10 20 30 5⟩

/-- C10 — Loading a document resets the session: after the success path of
`loadFile`, the history is empty with cursor −1 (so neither undo nor redo is
available), annotations, page rotations and deleted pages are empty, the
global rotation is 0, the current page is 1, and the page order is
[1, …, numPages] — whatever the previous session contained. -/
theorem load_resets_session (s : Session) (file : PDFFile) (numPages : Nat) :
    (Session.loadFileSuccess s file numPages).history = [] ∧
    (Session.loadFileSuccess s file numPages).historyIndex = -1 ∧
    canUndo (Session.loadFileSuccess s file numPages) = false ∧
    canRedo (Session.loadFileSuccess s file numPages) = false ∧
    (Session.loadFileSuccess s file numPages).st.annots = [] ∧
    (Session.loadFileSuccess s file numPages).st.pageRotations = [] ∧
    (Session.loadFileSuccess s file numPages).st.deletedPages = [] ∧
    (Session.loadFileSuccess s file numPages).st.rotation = 0 ∧
    (Session.loadFileSuccess s file numPages).st.currentPage = 1 ∧
    (Session.loadFileSuccess s file numPages).st.pageOrder = List.range' 1 numPages := by
  have hrange : (List.range numPages).map (fun i => i + 1) = List.range' 1 numPages := by
    rw [List.range'_eq_map_range]
    exact List.map_congr_left (fun i _ => Nat.add_comm i 1)
  simp [Session.loadFileSuccess, pdfReducer, initialState, canUndo, canRedo, hrange]

/-- Two overlapping rectangles on page 1, the second one inserted later
(higher z-order).  Both contain the point (5, 5). -/
def rectBelow : Annot :=
  { id := 0, kind := .rectangle, pageNumber := 1, x := 0, y := 0,
    width := some 10, height := some 10 }

/-- See `rectBelow`. -/
def rectAbove : Annot :=
  { id := 1, kind := .rectangle, pageNumber := 1, x := 2, y := 2,
    width := some 10, height := some 10 }

/-- C5 counterexample — the eraser's hit test is not topmost-first: with two
overlapping rectangles both containing the click point, `Array.prototype.find`
returns the earliest-inserted one (`rectBelow`), not the latest-inserted
(topmost) `rectAbove`, even though `rectAbove` also contains the point. -/
theorem eraser_hit_not_topmost :
    eraserHit [rectBelow, rectAbove] 1 { x := 5, y := 5 } = some rectBelow ∧
    rectBelow ≠ rectAbove ∧
    (rectAbove.pageNumber == 1 && isPointInAnnot { x := 5, y := 5 } rectAbove) = true := by
  refine ⟨?_, ?_, ?_⟩
  · norm_num [eraserHit, List.find?, isPointInAnnot, jsOrDefault, rectBelow, rectAbove] <;> decide
  · norm_num [rectBelow, rectAbove]
  · norm_num [isPointInAnnot, jsOrDefault, rectAbove] <;> decide

/-- C5 amended — the hit test used by the eraser selects the bottom-most
matching annotation: whenever `eraserHit` returns `a`, then `a` lies on the
clicked page and contains the point, and every annotation inserted before `a`
(lower z-order) fails the page-and-containment test. -/
theorem eraser_hit_lowest (l : List Annot) (p : Nat) (pt : Point) (a : Annot)
    (h : eraserHit l p pt = some a) :
    (a.pageNumber = p ∧ isPointInAnnot pt a = true) ∧
    ∃ l₁ l₂, l = l₁ ++ a :: l₂ ∧
      ∀ b ∈ l₁, (b.pageNumber == p && isPointInAnnot pt b) = false := by
  induction l with
  | nil => simp [eraserHit] at h
  | cons c cs ih =>
    simp only [eraserHit, List.find?] at h
    split at h
    · rename_i hc
      obtain rfl : c = a := by injection h
      simp only [Bool.and_eq_true, beq_iff_eq] at hc
      exact ⟨hc, [], cs, rfl, by simp⟩
    · rename_i hc
      obtain ⟨hpa, l₁, l₂, hsplit, hall⟩ := ih h
      refine ⟨hpa, c :: l₁, l₂, by rw [hsplit]; rfl, ?_⟩
      intro b hb
      rcases List.mem_cons.mp hb with rfl | hb'
      · exact hc
      · exact hall b hb'

/-- Witness for C5's amended theorem at the concrete overlapping rectangles. -/
theorem eraser_hit_lowest_witness :
    eraserHit [rectBelow, rectAbove] 1 { x := 5, y := 5 } = some rectBelow ∧
    ((rectBelow.pageNumber = 1 ∧ isPointInAnnot { x := 5, y := 5 } rectBelow = true) ∧
     ∃ l₁ l₂, [rectBelow, rectAbove] = l₁ ++ rectBelow :: l₂ ∧
       ∀ b ∈ l₁, (b.pageNumber == 1 && isPointInAnnot { x := 5, y := 5 } b) = false) := by
  have hfind : eraserHit [rectBelow, rectAbove] 1 { x := 5, y := 5 } = some rectBelow := by
    norm_num [eraserHit, List.find?, isPointInAnnot, jsOrDefault, rectBelow, rectAbove] <;> decide
  exact ⟨hfind, eraser_hit_lowest [rectBelow, rectAbove] 1 { x := 5, y := 5 } rectBelow hfind⟩

/-- A freshly created provider: `initialState`, empty history, cursor −1. -/
def sessionInit : Session :=
  { st := initialState, history := [], historyIndex := -1, nextId := 0 }

/-- The rotation commands the UI controls emit (`MenuBar.tsx`): `Rotate Page`
calls `rotatePage(page, ±90)`; `Rotate All` calls
`setRotation(state.rotation ± 90)`. -/
inductive RotOp
  | page (pageNumber : Nat) (delta : Int)
  | global (delta : Int)
deriving DecidableEq

/-- Dispatch of a UI rotation command to the context methods. -/
def applyRotOp (s : Session) (op : RotOp) : Session :=
  match op with
  | .page p d => Session.rotatePage s p d
  | .global d => Session.setRotation s (s.st.rotation + d)

/-- All deltas in the command list are +90 or −90. -/
def validRotOps (ops : List RotOp) : Bool :=
  ops.all fun op =>
    match op with
    | .page _ d => d == 90 || d == -90
    | .global d => d == 90 || d == -90

theorem jsRem_lb (a : Int) : -360 < jsRem a 360 := by
  unfold jsRem
  split
  · have := Int.emod_nonneg a (by norm_num : (360:Int) ≠ 0)
    omega
  · have := Int.emod_lt_of_pos (-a) (by norm_num : (0:Int) < 360)
    omega

theorem jsRem_ub (a : Int) : jsRem a 360 < 360 := by
  unfold jsRem
  split
  · exact Int.emod_lt_of_pos a (by norm_num)
  · have := Int.emod_nonneg (-a) (by norm_num : (360:Int) ≠ 0)
    omega

theorem jsRem_dvd (a : Int) (h : 90 ∣ a) : 90 ∣ jsRem a 360 := by
  unfold jsRem
  have h360 : (90:Int) ∣ 360 := by norm_num
  split
  · rw [Int.emod_def]
    exact dvd_sub h (h360.mul_right _)
  · rw [Int.emod_def]
    exact dvd_neg.mpr (dvd_sub (dvd_neg.mpr h) (h360.mul_right _))

/-- The rotation slices are multiples of 90 strictly between −360 and 360. -/
def rotStored (st : PDFState) : Prop :=
  (∀ q ∈ st.pageRotations, 90 ∣ q.2 ∧ -360 < q.2 ∧ q.2 < 360) ∧
  (90 ∣ st.rotation ∧ -360 < st.rotation ∧ st.rotation < 360)

theorem mem_mapSet (m : RotMap) (k : Nat) (v : Int) :
    ∀ q ∈ mapSet m k v, q.2 = v ∨ q ∈ m := by
  intro q hq
  unfold mapSet at hq
  split at hq
  · obtain ⟨p, hp, heq⟩ := List.mem_map.mp hq
    by_cases h : (p.1 == k) = true
    · left
      rw [← heq]
      simp [h]
    · right
      rw [← heq]
      simpa [h] using hp
  · rcases List.mem_append.mp hq with h | h
    · right
      exact h
    · left
      simp only [List.mem_singleton] at h
      rw [h]

theorem mapGet_dvd (m : RotMap) (hm : ∀ q ∈ m, 90 ∣ q.2) (p : Nat) :
    90 ∣ ((mapGet m p).getD 0) := by
  unfold mapGet
  cases hf : m.find? (fun q => q.1 == p) with
  | none => simp
  | some q =>
      simpa using hm q (List.mem_of_find?_eq_some hf)

theorem rotStored_applyRotOp (s : Session) (op : RotOp)
    (hd : match op with
          | RotOp.page _ d => d = 90 ∨ d = -90
          | RotOp.global d => d = 90 ∨ d = -90)
    (h : rotStored s.st) : rotStored ((applyRotOp s op).st) := by
  obtain ⟨hmap, hrot⟩ := h
  cases op with
  | page p d =>
      refine ⟨?_, hrot⟩
      intro q hq
      have hq' : q.2 = jsRem (((mapGet s.st.pageRotations p).getD 0) + d) 360 ∨
          q ∈ s.st.pageRotations := by
        have := mem_mapSet s.st.pageRotations p
          (jsRem (((mapGet s.st.pageRotations p).getD 0) + d) 360) q
        simpa [applyRotOp, Session.rotatePage, Session.pushHistory, pdfReducer] using
          this (by simpa [applyRotOp, Session.rotatePage, Session.pushHistory, pdfReducer] using hq)
      rcases hq' with hq' | hq'
      · have hdv : (90:Int) ∣ ((mapGet s.st.pageRotations p).getD 0) + d := by
          refine dvd_add (mapGet_dvd _ (fun q hq => (hmap q hq).1) _) ?_
          rcases hd with rfl | rfl <;> norm_num
        rw [hq']
        exact ⟨jsRem_dvd _ hdv, jsRem_lb _, jsRem_ub _⟩
      · exact hmap q hq'
  | global d =>
      refine ⟨?_, ?_⟩
      · intro q hq
        exact hmap q (by
          simpa [applyRotOp, Session.setRotation, Session.pushHistory, pdfReducer] using hq)
      · have hdv : (90:Int) ∣ s.st.rotation + d := by
          refine dvd_add hrot.1 ?_
          rcases hd with rfl | rfl <;> norm_num
        have hst : ((applyRotOp s (RotOp.global d)).st).rotation
            = jsRem (s.st.rotation + d) 360 := by
          simp [applyRotOp, Session.setRotation, Session.pushHistory, pdfReducer]
        rw [hst]
        exact ⟨jsRem_dvd _ hdv, jsRem_lb _, jsRem_ub _⟩

theorem rotStored_fold (ops : List RotOp) :
    ∀ s : Session, rotStored s.st → validRotOps ops = true →
      rotStored ((ops.foldl applyRotOp s).st) := by
  induction ops with
  | nil => intro s h _; exact h
  | cons op rest ih =>
      intro s h hv
      rw [validRotOps, List.all_cons, Bool.and_eq_true] at hv
      refine ih (applyRotOp s op) (rotStored_applyRotOp s op ?_ h) hv.2
      cases op with
      | page p d =>
          have := hv.1
          simp only [Bool.or_eq_true, beq_iff_eq] at this
          exact this
      | global d =>
          have := hv.1
          simp only [Bool.or_eq_true, beq_iff_eq] at this
          exact this

theorem dvd90_emod_cases (r : Int) (h : 90 ∣ r) :
    r % 360 = 0 ∨ r % 360 = 90 ∨ r % 360 = 180 ∨ r % 360 = 270 := by
  omega

/-- C3 counterexample — a stored rotation outside {0, 90, 180, 270}: from the
initial state, the UI command `rotatePage(1, -90)` stores −90 (JavaScript `%`
keeps the dividend's sign), which is not in {0, 90, 180, 270}. -/
theorem rotation_stores_negative :
    (applyRotOp sessionInit (RotOp.page 1 (-90))).st.pageRotations = [(1, -90)] ∧
    ¬((-90 : Int) = 0 ∨ (-90 : Int) = 90 ∨ (-90 : Int) = 180 ∨ (-90 : Int) = 270) := by
  constructor
  · decide
  · decide

/-- C3 amended — Rotation normalization up to sign: for every state reachable
from the initial state by UI rotation commands with deltas ±90, every stored
per-page rotation and the stored global rotation is a multiple of 90 strictly
between −360 and 360 (JavaScript `%` keeps the dividend's sign, so negative
values occur), and hence is congruent mod 360 to one of {0, 90, 180, 270}. -/
theorem rotation_normalization (s0 : Session) (ops : List RotOp)
    (h0 : s0.st.pageRotations = [] ∧ s0.st.rotation = 0)
    (hv : validRotOps ops = true) :
    (∀ q ∈ (ops.foldl applyRotOp s0).st.pageRotations,
        90 ∣ q.2 ∧ -360 < q.2 ∧ q.2 < 360 ∧
        (q.2 % 360 = 0 ∨ q.2 % 360 = 90 ∨ q.2 % 360 = 180 ∨ q.2 % 360 = 270)) ∧
    (90 ∣ (ops.foldl applyRotOp s0).st.rotation ∧
     -360 < (ops.foldl applyRotOp s0).st.rotation ∧
     (ops.foldl applyRotOp s0).st.rotation < 360 ∧
     ((ops.foldl applyRotOp s0).st.rotation % 360 = 0 ∨
      (ops.foldl applyRotOp s0).st.rotation % 360 = 90 ∨
      (ops.foldl applyRotOp s0).st.rotation % 360 = 180 ∨
      (ops.foldl applyRotOp s0).st.rotation % 360 = 270)) := by
  have hinv : rotStored s0.st := by
    constructor
    · intro q hq
      rw [h0.1] at hq
      simp at hq
    · rw [h0.2]
      norm_num
  have hF := rotStored_fold ops s0 hinv hv
  obtain ⟨hmap, hrot⟩ := hF
  constructor
  · intro q hq
    obtain ⟨h1, h2, h3⟩ := hmap q hq
    exact ⟨h1, h2, h3, dvd90_emod_cases q.2 h1⟩
  · exact ⟨hrot.1, hrot.2.1, hrot.2.2, dvd90_emod_cases _ hrot.1⟩

/-- Witness for C3's amended theorem on a concrete command sequence. -/
theorem rotation_normalization_witness :
    ((sessionInit.st.pageRotations = [] ∧ sessionInit.st.rotation = 0) ∧
     validRotOps [RotOp.page 1 (-90), RotOp.global 90] = true) ∧
    ((∀ q ∈ (([RotOp.page 1 (-90), RotOp.global 90]).foldl applyRotOp sessionInit).st.pageRotations,
        90 ∣ q.2 ∧ -360 < q.2 ∧ q.2 < 360 ∧
        (q.2 % 360 = 0 ∨ q.2 % 360 = 90 ∨ q.2 % 360 = 180 ∨ q.2 % 360 = 270)) ∧
     (90 ∣ (([RotOp.page 1 (-90), RotOp.global 90]).foldl applyRotOp sessionInit).st.rotation ∧
      -360 < (([RotOp.page 1 (-90), RotOp.global 90]).foldl applyRotOp sessionInit).st.rotation ∧
      (([RotOp.page 1 (-90), RotOp.global 90]).foldl applyRotOp sessionInit).st.rotation < 360 ∧
      ((([RotOp.page 1 (-90), RotOp.global 90]).foldl applyRotOp sessionInit).st.rotation % 360 = 0 ∨
       (([RotOp.page 1 (-90), RotOp.global 90]).foldl applyRotOp sessionInit).st.rotation % 360 = 90 ∨
       (([RotOp.page 1 (-90), RotOp.global 90]).foldl applyRotOp sessionInit).st.rotation % 360 = 180 ∨
       (([RotOp.page 1 (-90), RotOp.global 90]).foldl applyRotOp sessionInit).st.rotation % 360 = 270))) :=
  ⟨⟨⟨rfl, rfl⟩, by decide⟩,
   rotation_normalization sessionInit [RotOp.page 1 (-90), RotOp.global 90]
     ⟨rfl, rfl⟩ (by decide)⟩

/-- `pushHistory` on a session whose cursor sits at the tail of a non-full
log: the entry is appended (no eviction, no truncation) and the cursor
advances onto it. -/
theorem pushHistory_topped (s : Session) (e : HistoryEntry)
    (htop : s.historyIndex = (s.history.length : Int) - 1)
    (hcap : s.history.length < 50) :
    (Session.pushHistory s e).history = s.history ++ [e] ∧
    (Session.pushHistory s e).historyIndex = (s.history.length : Int) := by
  have h1 : (s.historyIndex + 1).toNat = s.history.length := by omega
  have h2 : ¬ 50 < (s.history ++ [e]).length := by
    simp only [List.length_append, List.length_singleton]
    omega
  have h3 : min (s.historyIndex + 1) 49 = (s.history.length : Int) := by omega
  simp only [Session.pushHistory]
  rw [h1, List.take_length, if_neg h2]
  exact ⟨rfl, h3⟩

/-- A freshly loaded one-page document. -/
def onePageSession : Session :=
  { st := pdfReducer initialState (.load_pdf { name := "doc.pdf" } 1),
    history := [], historyIndex := -1, nextId := 0 }

/-- C2 counterexample — `deletePage` is not rejected on the last visible page:
on a freshly loaded one-page document (one visible page), `deletePage 1` marks
the page deleted (visible count drops to 0) and appends a history entry. -/
theorem delete_last_page_not_rejected :
    (onePageSession.st.numPages : Int) - onePageSession.st.deletedPages.length = 1 ∧
    (Session.deletePage onePageSession 1).st.deletedPages = [1] ∧
    ((Session.deletePage onePageSession 1).st.numPages : Int)
      - (Session.deletePage onePageSession 1).st.deletedPages.length = 0 ∧
    (Session.deletePage onePageSession 1).history.length = 1 := by
  refine ⟨by decide, by decide, by decide, by decide⟩

/-- C2 amended — the last-page guard lives in the Sidebar key handler, not in
`deletePage`: when the state has exactly one non-deleted page `p`, the Sidebar
Delete-key handler returns without mutating anything (it never calls
`deletePage`), while calling `deletePage p` itself is not rejected — it marks
`p` deleted and appends one history entry. -/
theorem delete_page_unguarded (s : Session) (p : Nat)
    (h1 : (s.st.numPages : Int) - s.st.deletedPages.length = 1)
    (h2 : setHas s.st.deletedPages p = false)
    (htop : s.historyIndex = (s.history.length : Int) - 1)
    (hcap : s.history.length < 50) :
    sidebarDeleteKey s [p] = s ∧
    (Session.deletePage s p).st.deletedPages = s.st.deletedPages ++ [p] ∧
    (Session.deletePage s p).history.length = s.history.length + 1 := by
  refine ⟨?_, ?_, ?_⟩
  · unfold sidebarDeleteKey
    rw [if_pos]
    simp only [List.filter, h2, Bool.not_false, List.length_cons, List.length_nil]
    omega
  · have hadd : setAdd s.st.deletedPages p = s.st.deletedPages ++ [p] := by
      unfold setAdd setHas at *
      rw [if_neg (by rw [h2]; exact Bool.false_ne_true)]
    have hpush := pushHistory_topped
      { s with st := pdfReducer s.st (.delete_page p), nextId := s.nextId + 1 }
      { id := s.nextId, kind := .delete_page,
        undoData := { deletedPages := some s.st.deletedPages },
        redoData := { deletedPages := some (setAdd s.st.deletedPages p) } }
      htop hcap
    show (Session.pushHistory _ _).st.deletedPages = _
    rw [Session.pushHistory]
    simpa [pdfReducer] using hadd
  · have hpush := pushHistory_topped
      { s with st := pdfReducer s.st (.delete_page p), nextId := s.nextId + 1 }
      { id := s.nextId, kind := .delete_page,
        undoData := { deletedPages := some s.st.deletedPages },
        redoData := { deletedPages := some (setAdd s.st.deletedPages p) } }
      htop hcap
    show (Session.pushHistory _ _).history.length = _
    rw [hpush.1]
    simp

/-- Witness for C2's amended theorem on the one-page document. -/
theorem delete_page_unguarded_witness :
    ((onePageSession.st.numPages : Int) - onePageSession.st.deletedPages.length = 1 ∧
     setHas onePageSession.st.deletedPages 1 = false ∧
     onePageSession.historyIndex = (onePageSession.history.length : Int) - 1 ∧
     onePageSession.history.length < 50) ∧
    (sidebarDeleteKey onePageSession [1] = onePageSession ∧
     (Session.deletePage onePageSession 1).st.deletedPages
        = onePageSession.st.deletedPages ++ [1] ∧
     (Session.deletePage onePageSession 1).history.length
        = onePageSession.history.length + 1) :=
  ⟨⟨by decide, by decide, by decide, by decide⟩,
   delete_page_unguarded onePageSession 1 (by decide) (by decide) (by decide) (by decide)⟩

/-- The eight mutation methods of the provider, as data. -/
inductive Mutation
  | addA (draft : AnnotDraft)
  | updateA (id : Nat) (u : AnnotUpdate)
  | deleteA (id : Nat)
  | rotatePg (pageNumber : Nat) (rotation : Int)
  | deletePg (pageNumber : Nat)
  | restorePg (pageNumber : Nat)
  | reorderPgs (fromIndex toIndex : Nat)
  | setRot (rotation : Int)
deriving DecidableEq

/-- Dispatch of a mutation to the corresponding context method. -/
def Session.applyMut (s : Session) (m : Mutation) : Session :=
  match m with
  | .addA d => Session.addAnnot s d
  | .updateA i u => Session.updateAnnot s i u
  | .deleteA i => Session.deleteAnnot s i
  | .rotatePg p r => Session.rotatePage s p r
  | .deletePg p => Session.deletePage s p
  | .restorePg p => Session.restorePage s p
  | .reorderPgs f t => Session.reorderPages s f t
  | .setRot r => Session.setRotation s r

/-- Whether the mutation commits (records an entry): everything does, except
`updateAnnotation` / `deleteAnnotation` on an unknown id, which return
early. -/
def commits (st : PDFState) (m : Mutation) : Bool :=
  match m with
  | .updateA i _ => (st.annots.find? (fun a => a.id == i)).isSome
  | .deleteA i => (st.annots.find? (fun a => a.id == i)).isSome
  | _ => true

/-- How many fresh ids a committed mutation consumes (`addAnnotation` calls
`generateId` for the annotation and for the entry). -/
def idBump : Mutation → Nat
  | .addA _ => 2
  | _ => 1

/-- The reducer state after a committed mutation, `n` being the session's id
counter at the time. -/
def stepSt (st : PDFState) (n : Nat) (m : Mutation) : PDFState :=
  match m with
  | .addA d => pdfReducer st (.add_annot (d.withId n))
  | .updateA i u => pdfReducer st (.update_annot i u)
  | .deleteA i => pdfReducer st (.delete_annot i)
  | .rotatePg p r => pdfReducer st (.rotate_page p r)
  | .deletePg p => pdfReducer st (.delete_page p)
  | .restorePg p => pdfReducer st (.restore_page p)
  | .reorderPgs f t => pdfReducer st (.reorder_pages f t)
  | .setRot r => pdfReducer st (.set_rotation r)

/-- The history entry a committed mutation records, built from the
pre-mutation state exactly as the context callbacks build it. -/
def entryOf (st : PDFState) (n : Nat) (m : Mutation) : HistoryEntry :=
  match m with
  | .addA d =>
      { id := n + 1, kind := .add_annot,
        undoData := { annots := some st.annots },
        redoData := { annots := some (st.annots ++ [d.withId n]) } }
  | .updateA i u =>
      { id := n, kind := .update_annot,
        undoData := { annots := some st.annots },
        redoData :=
          { annots := some (st.annots.map (fun a => if a.id == i then a.merge u else a)) } }
  | .deleteA i =>
      { id := n, kind := .delete_annot,
        undoData := { annots := some st.annots },
        redoData := { annots := some (st.annots.filter (fun a => a.id != i)) } }
  | .rotatePg p r =>
      { id := n, kind := .rotate_page,
        undoData := { pageRotations := some st.pageRotations },
        redoData :=
          { pageRotations :=
              some (mapSet st.pageRotations p (jsRem (((mapGet st.pageRotations p).getD 0) + r) 360)) } }
  | .deletePg p =>
      { id := n, kind := .delete_page,
        undoData := { deletedPages := some st.deletedPages },
        redoData := { deletedPages := some (setAdd st.deletedPages p) } }
  | .restorePg p =>
      { id := n, kind := .restore_page,
        undoData := { deletedPages := some st.deletedPages },
        redoData := { deletedPages := some (setDelete st.deletedPages p) } }
  | .reorderPgs f t =>
      { id := n, kind := .reorder_pages,
        undoData := { pageOrder := some st.pageOrder },
        redoData := { pageOrder := some (spliceMove st.pageOrder f t) } }
  | .setRot r =>
      { id := n, kind := .rotate_all,
        undoData := { globalRotation := some st.rotation },
        redoData := { globalRotation := some (jsRem r 360) } }

/-- A committed mutation is exactly: advance the reducer state, bump the id
counter, and push the entry built from the pre-state. -/
theorem applyMut_commit (s : Session) (m : Mutation) (h : commits s.st m = true) :
    Session.applyMut s m =
      Session.pushHistory
        { s with st := stepSt s.st s.nextId m, nextId := s.nextId + idBump m }
        (entryOf s.st s.nextId m) := by
  cases m with
  | addA d => rfl
  | updateA i u =>
      simp only [Session.applyMut, Session.updateAnnot]
      simp only [commits] at h
      cases hf : s.st.annots.find? (fun a => a.id == i) with
      | none => rw [hf] at h; simp at h
      | some a => rfl
  | deleteA i =>
      simp only [Session.applyMut, Session.deleteAnnot]
      simp only [commits] at h
      cases hf : s.st.annots.find? (fun a => a.id == i) with
      | none => rw [hf] at h; simp at h
      | some a => rfl
  | rotatePg p r => rfl
  | deletePg p => rfl
  | restorePg p => rfl
  | reorderPgs f t => rfl
  | setRot r => rfl

/-- A non-committing mutation (unknown-id update/delete) is a complete
no-op on the session. -/
theorem applyMut_noncommit (s : Session) (m : Mutation) (h : commits s.st m = false) :
    Session.applyMut s m = s := by
  cases m with
  | updateA i u =>
      simp only [Session.applyMut, Session.updateAnnot]
      simp only [commits] at h
      cases hf : s.st.annots.find? (fun a => a.id == i) with
      | none => rfl
      | some a => rw [hf] at h; simp at h
  | deleteA i =>
      simp only [Session.applyMut, Session.deleteAnnot]
      simp only [commits] at h
      cases hf : s.st.annots.find? (fun a => a.id == i) with
      | none => rfl
      | some a => rw [hf] at h; simp at h
  | addA d => simp [commits] at h
  | rotatePg p r => simp [commits] at h
  | deletePg p => simp [commits] at h
  | restorePg p => simp [commits] at h
  | reorderPgs f t => simp [commits] at h
  | setRot r => simp [commits] at h

theorem setDelete_not_mem (l : PageSet) (p : Nat) (h : setHas l p = false) :
    setDelete l p = l := by
  unfold setDelete
  apply List.filter_eq_self.mpr
  intro a ha
  have hp : p ∉ l := by
    intro hmem
    rw [setHas] at h
    rw [List.contains_eq_any_beq] at h
    simp at h
    exact h p hmem rfl
  simp only [bne_iff_ne, ne_eq]
  intro heq
  exact hp (heq ▸ ha)

/-- C4 counterexample — `restorePage` on a page that is not deleted leaves
the reducer state unchanged but still appends a history entry, contradicting
the claim that it appends none. -/
theorem restore_page_pushes_entry :
    setHas onePageSession.st.deletedPages 1 = false ∧
    (Session.restorePage onePageSession 1).st = onePageSession.st ∧
    (Session.restorePage onePageSession 1).history.length = 1 := by
  refine ⟨by decide, by decide, by decide⟩

/-- C4 amended — Mutation atomicity, except that `restorePage` always records:
every mutation either leaves the whole session unchanged and appends no entry
(`updateAnnotation` / `deleteAnnotation` with an unknown id), or appends
exactly one history entry; `restorePage` on a non-deleted page is in the
second class — it appends an entry even though the session state is
unchanged. -/
theorem mutation_atomicity (s : Session) (m : Mutation)
    (htop : s.historyIndex = (s.history.length : Int) - 1)
    (hcap : s.history.length < 50) :
    ((commits s.st m = false ∧ Session.applyMut s m = s) ∨
     (commits s.st m = true ∧
      (Session.applyMut s m).history = s.history ++ [entryOf s.st s.nextId m])) ∧
    (∀ p, m = Mutation.restorePg p → setHas s.st.deletedPages p = false →
      (Session.applyMut s m).st = s.st) := by
  constructor
  · cases hc : commits s.st m with
    | false => exact Or.inl ⟨rfl, applyMut_noncommit s m hc⟩
    | true =>
        refine Or.inr ⟨rfl, ?_⟩
        rw [applyMut_commit s m hc]
        exact (pushHistory_topped _ _ htop hcap).1
  · rintro p rfl hnd
    show (Session.pushHistory _ _).st = s.st
    rw [Session.pushHistory]
    simp [pdfReducer, setDelete_not_mem _ _ hnd]

/-- Witness for C4's amended theorem: `restorePage 1` on a one-page document
whose page 1 is not deleted. -/
theorem mutation_atomicity_witness :
    (onePageSession.historyIndex = (onePageSession.history.length : Int) - 1 ∧
     onePageSession.history.length < 50) ∧
    (((commits onePageSession.st (Mutation.restorePg 1) = false ∧
       Session.applyMut onePageSession (Mutation.restorePg 1) = onePageSession) ∨
      (commits onePageSession.st (Mutation.restorePg 1) = true ∧
       (Session.applyMut onePageSession (Mutation.restorePg 1)).history
         = onePageSession.history ++ [entryOf onePageSession.st onePageSession.nextId (Mutation.restorePg 1)])) ∧
     (∀ p, Mutation.restorePg 1 = Mutation.restorePg p →
        setHas onePageSession.st.deletedPages p = false →
        (Session.applyMut onePageSession (Mutation.restorePg 1)).st = onePageSession.st)) :=
  ⟨⟨by decide, by decide⟩,
   mutation_atomicity onePageSession (Mutation.restorePg 1) (by decide) (by decide)⟩

/-- `undo` never modifies the history log itself. -/
theorem undo_history_eq (s : Session) : (Session.undo s).history = s.history := by
  rw [Session.undo]
  split
  · rfl
  · split <;> rfl

/-- `redo` never modifies the history log itself. -/
theorem redo_history_eq (s : Session) : (Session.redo s).history = s.history := by
  rw [Session.redo]
  split
  · rfl
  · split <;> rfl

/-- Any sequence of undo/redo calls leaves the history log unchanged. -/
theorem urFold_history (ops : List Bool) : ∀ t : Session,
    ((ops.foldl (fun t b => if b then Session.undo t else Session.redo t) t).history
      = t.history) := by
  induction ops with
  | nil => intro t; rfl
  | cons b rest ih =>
      intro t
      rw [List.foldl_cons, ih]
      cases b
      · simpa using redo_history_eq t
      · simpa using undo_history_eq t

/-- C7 — Branch truncation: from a state where `canRedo` holds, recording a
new entry discards everything after the cursor before appending, so `canRedo`
is false immediately afterwards, the formerly redoable entries are gone from
the log (ids are unique, so they cannot coincide with surviving entries), and
no sequence of undo/redo calls can bring them back, because neither call ever
modifies the log. -/
theorem branch_truncation (s : Session) (e : HistoryEntry)
    (hredo : canRedo s = true)
    (hlo : -1 ≤ s.historyIndex)
    (hcap : s.history.length ≤ 50)
    (hnodup : (s.history.map HistoryEntry.id).Nodup)
    (hfresh : e.id ∉ s.history.map HistoryEntry.id) :
    canRedo (Session.pushHistory s e) = false ∧
    (Session.pushHistory s e).history
      = s.history.take (s.historyIndex + 1).toNat ++ [e] ∧
    (∀ a ∈ s.history.drop (s.historyIndex + 1).toNat,
        a ∉ (Session.pushHistory s e).history) ∧
    (∀ ops : List Bool,
      ((ops.foldl (fun t b => if b then Session.undo t else Session.redo t)
          (Session.pushHistory s e)).history
        = (Session.pushHistory s e).history)) := by
  have hlt : s.historyIndex < (s.history.length : Int) - 1 := by
    rw [canRedo, decide_eq_true_iff] at hredo
    exact hredo
  have hkk : (s.historyIndex + 1).toNat ≤ s.history.length - 1 := by omega
  have hlen1 : 1 ≤ s.history.length := by omega
  have htklen : (s.history.take (s.historyIndex + 1).toNat).length
      = (s.historyIndex + 1).toNat := List.length_take_of_le (by omega)
  have hnotrim : ¬ 50 < (s.history.take (s.historyIndex + 1).toNat ++ [e]).length := by
    rw [List.length_append, htklen]
    simp only [List.length_singleton]
    omega
  have hhist : (Session.pushHistory s e).history
      = s.history.take (s.historyIndex + 1).toNat ++ [e] := by
    simp only [Session.pushHistory]
    rw [if_neg hnotrim]
  refine ⟨?_, hhist, ?_, fun ops => urFold_history ops (Session.pushHistory s e)⟩
  · rw [canRedo, hhist]
    rw [List.length_append, htklen]
    simp only [List.length_singleton]
    rw [decide_eq_false_iff_not]
    show ¬ min (s.historyIndex + 1) 49 < _
    push_cast
    omega
  · intro a ha hmem
    rw [hhist] at hmem
    have hsplit := List.take_append_drop (s.historyIndex + 1).toNat s.history
    rcases List.mem_append.mp hmem with hin | hin
    · have hnodup' : ((s.history.take (s.historyIndex + 1).toNat).map HistoryEntry.id
          ++ (s.history.drop (s.historyIndex + 1).toNat).map HistoryEntry.id).Nodup := by
        rw [← List.map_append, hsplit]
        exact hnodup
      have hdisj := (List.nodup_append.mp hnodup').2.2
      exact hdisj (List.mem_map_of_mem HistoryEntry.id hin)
        (List.mem_map_of_mem HistoryEntry.id ha)
    · have : a = e := by simpa using hin
      apply hfresh
      rw [this] at ha
      have : e.id ∈ (s.history.drop (s.historyIndex + 1).toNat).map HistoryEntry.id :=
        List.mem_map_of_mem HistoryEntry.id ha
      rw [← hsplit, List.map_append]
      exact List.mem_append_right _ this

/-- A concrete session for C7: two recorded entries, one undone (cursor at
entry 0), so the entry with id 1 is redoable. -/
def redoableSession : Session :=
  { st := initialState,
    history :=
      [{ id := 0, kind := .delete_page, undoData := {}, redoData := {} },
       { id := 1, kind := .delete_page, undoData := {}, redoData := {} }],
    historyIndex := 0, nextId := 2 }

/-- Witness for C7 at `redoableSession` with a fresh entry of id 2. -/
theorem branch_truncation_witness :
    (canRedo redoableSession = true ∧
     -1 ≤ redoableSession.historyIndex ∧
     redoableSession.history.length ≤ 50 ∧
     (redoableSession.history.map HistoryEntry.id).Nodup ∧
     ({ id := 2, kind := .delete_page, undoData := {}, redoData := {} } : HistoryEntry).id
        ∉ redoableSession.history.map HistoryEntry.id) ∧
    (canRedo (Session.pushHistory redoableSession
        { id := 2, kind := .delete_page, undoData := {}, redoData := {} }) = false ∧
     (Session.pushHistory redoableSession
        { id := 2, kind := .delete_page, undoData := {}, redoData := {} }).history
       = redoableSession.history.take (redoableSession.historyIndex + 1).toNat
           ++ [{ id := 2, kind := .delete_page, undoData := {}, redoData := {} }] ∧
     (∀ a ∈ redoableSession.history.drop (redoableSession.historyIndex + 1).toNat,
        a ∉ (Session.pushHistory redoableSession
              { id := 2, kind := .delete_page, undoData := {}, redoData := {} }).history) ∧
     (∀ ops : List Bool,
       ((ops.foldl (fun t b => if b then Session.undo t else Session.redo t)
           (Session.pushHistory redoableSession
             { id := 2, kind := .delete_page, undoData := {}, redoData := {} })).history
         = (Session.pushHistory redoableSession
             { id := 2, kind := .delete_page, undoData := {}, redoData := {} }).history))) :=
  ⟨⟨by decide, by decide, by decide, by decide, by decide⟩,
   branch_truncation redoableSession
     { id := 2, kind := .delete_page, undoData := {}, redoData := {} }
     (by decide) (by decide) (by decide) (by decide) (by decide)⟩

/-- Folding `pushHistory` over the first `k` of a list of entries, starting
from a pristine session: the log holds the last `min k 50` of them and the
cursor sits at the tail. -/
theorem pushHistory_fold (es : List HistoryEntry) (s0 : Session)
    (h0 : s0.history = []) (hi : s0.historyIndex = -1) :
    ∀ k, k ≤ es.length →
      ((es.take k).foldl Session.pushHistory s0).history = (es.take k).drop (k - 50) ∧
      ((es.take k).foldl Session.pushHistory s0).historyIndex = (min k 50 : Int) - 1 := by
  intro k
  induction k with
  | zero =>
      intro _
      simp [h0, hi]
  | succ k ih =>
      intro hk
      have hk' : k ≤ es.length := Nat.le_of_succ_le hk
      obtain ⟨ihh, ihi⟩ := ih hk'
      have hklt : k < es.length := hk
      have hget : es[k]? = some es[k] := List.getElem?_eq_getElem hklt
      have htake : es.take (k + 1) = es.take k ++ [es[k]] := by
        rw [List.take_succ, hget]
        rfl
      rw [htake, List.foldl_append]
      set t := (es.take k).foldl Session.pushHistory s0 with ht
      simp only [List.foldl_cons, List.foldl_nil]
      have hTlen : t.history.length = min k 50 := by
        rw [ihh, List.length_drop, List.length_take_of_le hk']
        omega
      have hidx : (t.historyIndex + 1).toNat = t.history.length := by
        rw [hTlen]
        omega
      simp only [Session.pushHistory]
      rw [hidx, List.take_length]
      by_cases hbig : 50 ≤ k
      · have hcond : 50 < (t.history ++ [es[k]]).length := by
          rw [List.length_append, hTlen]
          simp only [List.length_singleton]
          omega
        rw [if_pos hcond]
        have hL : (t.history ++ [es[k]]).drop 1 = (es.take k).drop (k - 49) ++ [es[k]] := by
          rw [List.drop_append_eq_append_drop]
          have h1 : 1 - t.history.length = 0 := by omega
          rw [h1, List.drop_zero]
          congr 1
          rw [ihh, List.drop_drop]
          congr 1
          omega
        have hR : (es.take k ++ [es[k]]).drop (k + 1 - 50)
            = (es.take k).drop (k - 49) ++ [es[k]] := by
          rw [List.drop_append_eq_append_drop]
          have h2 : k + 1 - 50 - (es.take k).length = 0 := by
            rw [List.length_take_of_le hk']
            omega
          have h5 : k + 1 - 50 = k - 49 := by omega
          rw [h2, List.drop_zero, h5]
        refine ⟨by rw [hL, hR], ?_⟩
        omega
      · have hcond : ¬ 50 < (t.history ++ [es[k]]).length := by
          rw [List.length_append, hTlen]
          simp only [List.length_singleton]
          omega
        rw [if_neg hcond]
        have h3 : k - 50 = 0 := by omega
        have h4 : k + 1 - 50 = 0 := by omega
        refine ⟨?_, ?_⟩
        · rw [h4, List.drop_zero, ihh, h3, List.drop_zero]
        · omega

/-- Iterating `undo` `k` times while entries remain: the cursor retreats by
`k` and the log is untouched. -/
theorem undo_iterate (k : Nat) : ∀ s : Session,
    (k : Int) ≤ s.historyIndex + 1 → s.historyIndex < (s.history.length : Int) →
    (Session.undo^[k] s).historyIndex = s.historyIndex - k ∧
    (Session.undo^[k] s).history = s.history := by
  induction k with
  | zero =>
      intro s _ _
      simp
  | succ k ih =>
      intro s hk hub
      rw [Function.iterate_succ_apply]
      have h0 : ¬ s.historyIndex < 0 := by omega
      have hlt : s.historyIndex.toNat < s.history.length := by omega
      have hen : s.history[s.historyIndex.toNat]? = some s.history[s.historyIndex.toNat] :=
        List.getElem?_eq_getElem hlt
      have hu : Session.undo s
          = { s with
              st := pdfReducer s.st (.restore_state s.history[s.historyIndex.toNat].undoData),
              historyIndex := s.historyIndex - 1 } := by
        rw [Session.undo, if_neg h0, hen]
      rw [hu]
      obtain ⟨ih1, ih2⟩ := ih
        { s with
          st := pdfReducer s.st (.restore_state s.history[s.historyIndex.toNat].undoData),
          historyIndex := s.historyIndex - 1 }
        (by show (k : Int) ≤ s.historyIndex - 1 + 1; push_cast at hk; omega)
        (by show s.historyIndex - 1 < (s.history.length : Int); omega)
      refine ⟨?_, ih2⟩
      rw [ih1]
      show s.historyIndex - 1 - (k : Int) = s.historyIndex - ((k : Nat) + 1 : Nat)
      push_cast
      ring

/-- C6 — Capacity bound: pushing 60 entries into a pristine history leaves
exactly the last 50 (the 10 oldest evicted from the head) with the cursor at
49; after each push, eviction or not, the cursor still points at the entry
just recorded; undo is available exactly 50 times (`canUndo` holds up to and
including the 49th undo and fails after the 50th). -/
theorem capacity_bound (s0 : Session) (es : List HistoryEntry)
    (h0 : s0.history = []) (hi : s0.historyIndex = -1) (hlen : es.length = 60) :
    (es.foldl Session.pushHistory s0).history = es.drop 10 ∧
    (es.foldl Session.pushHistory s0).history.length = 50 ∧
    (es.foldl Session.pushHistory s0).historyIndex = 49 ∧
    (∀ k, k < 60 →
      (((es.take (k + 1)).foldl Session.pushHistory s0).history)[
        (((es.take (k + 1)).foldl Session.pushHistory s0).historyIndex).toNat]? = es[k]?) ∧
    (∀ k, k ≤ 49 → canUndo (Session.undo^[k] (es.foldl Session.pushHistory s0)) = true) ∧
    canUndo (Session.undo^[50] (es.foldl Session.pushHistory s0)) = false := by
  have htk : es.take 60 = es := List.take_of_length_le (by omega)
  have hfold := pushHistory_fold es s0 h0 hi 60 (by omega)
  rw [htk] at hfold
  obtain ⟨hh, hix⟩ := hfold
  have hh10 : (es.foldl Session.pushHistory s0).history = es.drop 10 := by
    rw [hh]
  have hl50 : (es.foldl Session.pushHistory s0).history.length = 50 := by
    rw [hh10, List.length_drop, hlen]
  have hix49 : (es.foldl Session.pushHistory s0).historyIndex = 49 := by
    rw [hix]
    norm_num
  refine ⟨hh10, hl50, hix49, ?_, ?_, ?_⟩
  · intro k hk
    have hfk := pushHistory_fold es s0 h0 hi (k + 1) (by omega)
    obtain ⟨hfh, hfi⟩ := hfk
    rw [hfh, hfi]
    have htn : ((min (k + 1 : Nat) 50 : Int) - 1).toNat = min (k + 1) 50 - 1 := by
      omega
    rw [htn, List.getElem?_drop]
    have harith : k + 1 - 50 + (min (k + 1) 50 - 1) = k := by omega
    rw [harith]
    exact List.getElem?_take_of_lt (by omega)
  · intro k hk
    have hit := undo_iterate k (es.foldl Session.pushHistory s0)
      (by rw [hix49]; push_cast; omega) (by rw [hix49, hl50]; norm_num)
    rw [canUndo, hit.1, hix49, decide_eq_true_iff]
    push_cast
    omega
  · have hit := undo_iterate 50 (es.foldl Session.pushHistory s0)
      (by rw [hix49]; norm_num) (by rw [hix49, hl50]; norm_num)
    rw [canUndo, hit.1, hix49, decide_eq_false_iff_not]
    norm_num

/-- A list of 60 distinct dummy entries for the C6 witness. -/
def sixtyEntries : List HistoryEntry :=
  (List.range 60).map fun i => { id := i, kind := .delete_page, undoData := {}, redoData := {} }

/-- Witness for C6 at `sessionInit` and `sixtyEntries`. -/
theorem capacity_bound_witness :
    (sessionInit.history = [] ∧ sessionInit.historyIndex = -1 ∧ sixtyEntries.length = 60) ∧
    ((sixtyEntries.foldl Session.pushHistory sessionInit).history = sixtyEntries.drop 10 ∧
     (sixtyEntries.foldl Session.pushHistory sessionInit).history.length = 50 ∧
     (sixtyEntries.foldl Session.pushHistory sessionInit).historyIndex = 49 ∧
     (∀ k, k < 60 →
       (((sixtyEntries.take (k + 1)).foldl Session.pushHistory sessionInit).history)[
         (((sixtyEntries.take (k + 1)).foldl Session.pushHistory sessionInit).historyIndex).toNat]?
         = sixtyEntries[k]?) ∧
     (∀ k, k ≤ 49 →
       canUndo (Session.undo^[k] (sixtyEntries.foldl Session.pushHistory sessionInit)) = true) ∧
     canUndo (Session.undo^[50] (sixtyEntries.foldl Session.pushHistory sessionInit)) = false) :=
  ⟨⟨rfl, rfl, by decide⟩,
   capacity_bound sessionInit sixtyEntries rfl rfl (by decide)⟩

/-- All mutations in the sequence commit (are recorded), threading the state
and id counter through. -/
def allCommit : PDFState → Nat → List Mutation → Bool
  | _, _, [] => true
  | st, n, m :: ms => commits st m && allCommit (stepSt st n m) (n + idBump m) ms

/-- The history entries a committed mutation sequence records, in order. -/
def entriesOf : PDFState → Nat → List Mutation → List HistoryEntry
  | _, _, [] => []
  | st, n, m :: ms => entryOf st n m :: entriesOf (stepSt st n m) (n + idBump m) ms

/-- The reducer state after a committed mutation sequence. -/
def foldSt : PDFState → Nat → List Mutation → PDFState
  | st, _, [] => st
  | st, n, m :: ms => foldSt (stepSt st n m) (n + idBump m) ms

/-- The id counter after a committed mutation sequence. -/
def foldN : Nat → List Mutation → Nat
  | n, [] => n
  | n, m :: ms => foldN (n + idBump m) ms

theorem foldN_append (ms : List Mutation) : ∀ (n : Nat) (m : Mutation),
    foldN n (ms ++ [m]) = foldN n ms + idBump m := by
  induction ms with
  | nil => intro n m; rfl
  | cons m0 rest ih => intro n m; exact ih (n + idBump m0) m

theorem foldSt_append (ms : List Mutation) : ∀ (st : PDFState) (n : Nat) (m : Mutation),
    foldSt st n (ms ++ [m]) = stepSt (foldSt st n ms) (foldN n ms) m := by
  induction ms with
  | nil => intro st n m; rfl
  | cons m0 rest ih => intro st n m; exact ih (stepSt st n m0) (n + idBump m0) m

theorem entriesOf_append (ms : List Mutation) : ∀ (st : PDFState) (n : Nat) (m : Mutation),
    entriesOf st n (ms ++ [m])
      = entriesOf st n ms ++ [entryOf (foldSt st n ms) (foldN n ms) m] := by
  induction ms with
  | nil => intro st n m; rfl
  | cons m0 rest ih =>
      intro st n m
      show entryOf st n m0 :: entriesOf (stepSt st n m0) (n + idBump m0) (rest ++ [m]) = _
      rw [ih (stepSt st n m0) (n + idBump m0) m]
      rfl

theorem allCommit_append (ms : List Mutation) : ∀ (st : PDFState) (n : Nat) (m : Mutation),
    allCommit st n (ms ++ [m])
      = (allCommit st n ms && commits (foldSt st n ms) m) := by
  induction ms with
  | nil =>
      intro st n m
      show (commits st m && true) = (true && commits st m)
      rw [Bool.and_true, Bool.true_and]
  | cons m0 rest ih =>
      intro st n m
      show (commits st m0 && allCommit (stepSt st n m0) (n + idBump m0) (rest ++ [m])) = _
      rw [ih (stepSt st n m0) (n + idBump m0) m]
      show _ = (commits st m0 && allCommit (stepSt st n m0) (n + idBump m0) rest
        && commits (foldSt (stepSt st n m0) (n + idBump m0) rest) m)
      rw [Bool.and_assoc]

theorem entriesOf_length (ms : List Mutation) : ∀ (st : PDFState) (n : Nat),
    (entriesOf st n ms).length = ms.length := by
  induction ms with
  | nil => intro st n; rfl
  | cons m rest ih =>
      intro st n
      show (entriesOf st n (m :: rest)).length = rest.length + 1
      rw [entriesOf]
      simp only [List.length_cons]
      rw [ih (stepSt st n m) (n + idBump m)]

/-- `applyMut_commit` specialised to a session literal. -/
theorem applyMut_commit_lit (st : PDFState) (H : List HistoryEntry) (i : Int) (n : Nat)
    (m : Mutation) (hc : commits st m = true) :
    Session.applyMut ⟨st, H, i, n⟩ m
      = Session.pushHistory ⟨stepSt st n m, H, i, n + idBump m⟩ (entryOf st n m) :=
  applyMut_commit ⟨st, H, i, n⟩ m hc

/-- `pushHistory` on a session literal whose cursor is at the tail of a
non-full log. -/
theorem pushHistory_topped_eq (st : PDFState) (H : List HistoryEntry) (n : Nat)
    (e : HistoryEntry) (hcap : H.length < 50) :
    Session.pushHistory ⟨st, H, (H.length : Int) - 1, n⟩ e
      = ⟨st, H ++ [e], (H.length : Int), n⟩ := by
  have h1 : (((H.length : Int) - 1) + 1).toNat = H.length := by omega
  have h2 : ¬ 50 < (H ++ [e]).length := by
    rw [List.length_append]
    simp only [List.length_singleton]
    omega
  have h3 : min (((H.length : Int) - 1) + 1) 49 = (H.length : Int) := by omega
  simp only [Session.pushHistory]
  rw [h1, List.take_length, if_neg h2, h3]

/-- Folding a committed mutation sequence over a session whose cursor is at
the tail of its log: the reducer state advances through `foldSt`, the entries
of `entriesOf` are appended, and the cursor ends at the new tail. -/
theorem fold_structure (ms : List Mutation) :
    ∀ (st : PDFState) (n : Nat) (H : List HistoryEntry) (i : Int),
      i = (H.length : Int) - 1 →
      allCommit st n ms = true →
      H.length + ms.length ≤ 50 →
      List.foldl Session.applyMut ⟨st, H, i, n⟩ ms
        = ⟨foldSt st n ms, H ++ entriesOf st n ms,
            ((H.length + ms.length : Nat) : Int) - 1, foldN n ms⟩ := by
  induction ms with
  | nil =>
      intro st n H i hi _ _
      rw [List.foldl_nil, hi]
      show (⟨st, H, (H.length : Int) - 1, n⟩ : Session) = _
      rw [foldSt, entriesOf, foldN, List.append_nil]
      simp
  | cons m rest ih =>
      intro st n H i hi hc hlen
      obtain ⟨hc1, hc2⟩ :
          commits st m = true ∧ allCommit (stepSt st n m) (n + idBump m) rest = true := by
        simpa only [allCommit, Bool.and_eq_true] using hc
      subst hi
      rw [List.foldl_cons, applyMut_commit_lit st H _ n m hc1,
        pushHistory_topped_eq (stepSt st n m) H (n + idBump m) (entryOf st n m)
          (by simp only [List.length_cons] at hlen; omega)]
      have hIdx : (H.length : Int) = (((H ++ [entryOf st n m]).length : Nat) : Int) - 1 := by
        rw [List.length_append]
        simp only [List.length_singleton]
        push_cast
        ring
      rw [show (⟨stepSt st n m, H ++ [entryOf st n m], (H.length : Int), n + idBump m⟩ : Session)
            = ⟨stepSt st n m, H ++ [entryOf st n m],
                (((H ++ [entryOf st n m]).length : Nat) : Int) - 1, n + idBump m⟩ by rw [← hIdx]]
      have hlen' : (H ++ [entryOf st n m]).length + rest.length ≤ 50 := by
        rw [List.length_append]
        simp only [List.length_singleton]
        simp only [List.length_cons] at hlen
        omega
      rw [ih (stepSt st n m) (n + idBump m) (H ++ [entryOf st n m]) _ rfl hc2 hlen']
      rw [foldSt, entriesOf, foldN]
      rw [List.append_assoc]
      simp only [List.singleton_append, List.length_append, List.length_singleton,
        List.length_cons, List.length_nil]
      congr 1
      push_cast
      ring

/-- Applying an entry's `undoData` to the post-state of its own mutation
restores the pre-state, except for the global rotation, which `RESTORE_STATE`
never touches (snapshots carry it under `globalRotation`, the reducer reads
`rotation`); the current rotation `R` survives unchanged. -/
theorem restore_undo (st : PDFState) (n : Nat) (m : Mutation) (R : Int) :
    pdfReducer { stepSt st n m with rotation := R }
        (.restore_state (entryOf st n m).undoData)
      = { st with rotation := R } := by
  cases m <;> rfl

/-- Applying an entry's `redoData` to its pre-state advances to the
post-state, again leaving the rotation field at its current value `R`. -/
theorem restore_redo (st : PDFState) (n : Nat) (m : Mutation) (R : Int) :
    pdfReducer { st with rotation := R }
        (.restore_state (entryOf st n m).redoData)
      = { stepSt st n m with rotation := R } := by
  cases m <;> rfl

/-- Undoing `N` times from the tail of the log of a committed `N`-mutation
sequence rewinds the restorable slices to the initial state; the rotation
field keeps its current value and the log, cursor target −1, and id counter
behave as expected.  `extra` is an arbitrary unreachable suffix of the log. -/
theorem undo_spine (ms : List Mutation) :
    ∀ (st : PDFState) (n : Nat) (R : Int) (extra : List HistoryEntry) (nid : Nat),
      allCommit st n ms = true →
      Session.undo^[ms.length]
        ⟨{ foldSt st n ms with rotation := R }, entriesOf st n ms ++ extra,
          (ms.length : Int) - 1, nid⟩
        = ⟨{ st with rotation := R }, entriesOf st n ms ++ extra, -1, nid⟩ := by
  induction ms using List.reverseRecOn with
  | nil =>
      intro st n R extra nid _
      simp [entriesOf, foldSt]
  | append_singleton ms m ih =>
      intro st n R extra nid hc
      obtain ⟨hcMs, hcM⟩ : allCommit st n ms = true ∧ commits (foldSt st n ms) m = true := by
        simpa only [allCommit_append ms st n m, Bool.and_eq_true] using hc
      rw [List.length_append, List.length_singleton, Function.iterate_succ_apply]
      rw [entriesOf_append ms st n m, foldSt_append ms st n m]
      have hundo : Session.undo
          ⟨{ stepSt (foldSt st n ms) (foldN n ms) m with rotation := R },
            (entriesOf st n ms ++ [entryOf (foldSt st n ms) (foldN n ms) m]) ++ extra,
            ((ms.length + 1 : Nat) : Int) - 1, nid⟩
          = ⟨{ foldSt st n ms with rotation := R },
              (entriesOf st n ms ++ [entryOf (foldSt st n ms) (foldN n ms) m]) ++ extra,
              (ms.length : Int) - 1, nid⟩ := by
        have hget : ((entriesOf st n ms ++ [entryOf (foldSt st n ms) (foldN n ms) m]) ++ extra)[
            ((((ms.length + 1 : Nat) : Int) - 1)).toNat]?
            = some (entryOf (foldSt st n ms) (foldN n ms) m) := by
          have ht : ((((ms.length + 1 : Nat) : Int) - 1)).toNat = ms.length := by omega
          rw [ht, List.append_assoc,
            List.getElem?_append_right (by rw [entriesOf_length ms st n])]
          rw [entriesOf_length ms st n, Nat.sub_self]
          simp
        have hstep : Session.undo
            ⟨{ stepSt (foldSt st n ms) (foldN n ms) m with rotation := R },
              (entriesOf st n ms ++ [entryOf (foldSt st n ms) (foldN n ms) m]) ++ extra,
              ((ms.length + 1 : Nat) : Int) - 1, nid⟩
            = ⟨pdfReducer { stepSt (foldSt st n ms) (foldN n ms) m with rotation := R }
                  (.restore_state (entryOf (foldSt st n ms) (foldN n ms) m).undoData),
                (entriesOf st n ms ++ [entryOf (foldSt st n ms) (foldN n ms) m]) ++ extra,
                (((ms.length + 1 : Nat) : Int) - 1) - 1, nid⟩ := by
          rw [Session.undo, if_neg (by push_cast; omega), hget]
        rw [hstep, restore_undo (foldSt st n ms) (foldN n ms) m R]
        congr 1
        push_cast
        ring
      rw [hundo, List.append_assoc]
      exact ih st n R ([entryOf (foldSt st n ms) (foldN n ms) m] ++ extra) nid hcMs

/-- Redoing `N` times from below the entries of a committed `N`-mutation
sequence replays the restorable slices forward to the final state; the
rotation field keeps its current value.  `pre` is the (already undone) prefix
of the log the cursor starts under. -/
theorem redo_spine (ms : List Mutation) :
    ∀ (st : PDFState) (n : Nat) (R : Int) (pre : List HistoryEntry) (nid : Nat),
      allCommit st n ms = true →
      Session.redo^[ms.length]
        ⟨{ st with rotation := R }, pre ++ entriesOf st n ms, (pre.length : Int) - 1, nid⟩
        = ⟨{ foldSt st n ms with rotation := R }, pre ++ entriesOf st n ms,
            ((pre.length + ms.length : Nat) : Int) - 1, nid⟩ := by
  induction ms with
  | nil =>
      intro st n R pre nid _
      simp [entriesOf, foldSt]
  | cons m rest ih =>
      intro st n R pre nid hc
      obtain ⟨hc1, hc2⟩ :
          commits st m = true ∧ allCommit (stepSt st n m) (n + idBump m) rest = true := by
        simpa only [allCommit, Bool.and_eq_true] using hc
      rw [List.length_cons, Function.iterate_succ_apply]
      rw [entriesOf]
      have hredo : Session.redo
          ⟨{ st with rotation := R },
            pre ++ entryOf st n m :: entriesOf (stepSt st n m) (n + idBump m) rest,
            (pre.length : Int) - 1, nid⟩
          = ⟨{ stepSt st n m with rotation := R },
              pre ++ entryOf st n m :: entriesOf (stepSt st n m) (n + idBump m) rest,
              (pre.length : Int), nid⟩ := by
        have hget : (pre ++ entryOf st n m :: entriesOf (stepSt st n m) (n + idBump m) rest)[
            (((pre.length : Int) - 1) + 1).toNat]? = some (entryOf st n m) := by
          have ht : (((pre.length : Int) - 1) + 1).toNat = pre.length := by omega
          rw [ht, List.getElem?_append_right (le_refl pre.length), Nat.sub_self]
          simp
        have hstep : Session.redo
            ⟨{ st with rotation := R },
              pre ++ entryOf st n m :: entriesOf (stepSt st n m) (n + idBump m) rest,
              (pre.length : Int) - 1, nid⟩
            = ⟨pdfReducer { st with rotation := R }
                  (.restore_state (entryOf st n m).redoData),
                pre ++ entryOf st n m :: entriesOf (stepSt st n m) (n + idBump m) rest,
                ((pre.length : Int) - 1) + 1, nid⟩ := by
          rw [Session.redo]
          rw [if_neg (by
            rw [List.length_append, List.length_cons,
              entriesOf_length rest (stepSt st n m) (n + idBump m)]
            push_cast
            omega)]
          rw [hget]
        rw [hstep, restore_redo st n m R]
        congr 1
        push_cast
        ring
      rw [hredo]
      have hassoc : pre ++ entryOf st n m :: entriesOf (stepSt st n m) (n + idBump m) rest
          = (pre ++ [entryOf st n m]) ++ entriesOf (stepSt st n m) (n + idBump m) rest := by
        rw [List.append_assoc]
        rfl
      rw [hassoc]
      have hidx : (pre.length : Int) = (((pre ++ [entryOf st n m]).length : Nat) : Int) - 1 := by
        rw [List.length_append, List.length_singleton]
        push_cast
        ring
      rw [show (⟨{ stepSt st n m with rotation := R },
              (pre ++ [entryOf st n m]) ++ entriesOf (stepSt st n m) (n + idBump m) rest,
              (pre.length : Int), nid⟩ : Session)
            = ⟨{ stepSt st n m with rotation := R },
                (pre ++ [entryOf st n m]) ++ entriesOf (stepSt st n m) (n + idBump m) rest,
                (((pre ++ [entryOf st n m]).length : Nat) : Int) - 1, nid⟩ from by rw [← hidx]]
      rw [ih (stepSt st n m) (n + idBump m) R (pre ++ [entryOf st n m]) nid hc2]
      rw [foldSt]
      congr 1
      rw [List.length_append, List.length_singleton]
      push_cast
      ring

/-- C1 — History linearity: starting from a fresh history, after any sequence
of at most 50 committed mutations, undoing N times and then redoing N times
reproduces the annotations, page rotations, deleted pages, page order and
global rotation of the state immediately after the N-th mutation. -/
theorem history_linearity (st0 : PDFState) (n0 : Nat) (ms : List Mutation)
    (hc : allCommit st0 n0 ms = true) (hlen : ms.length ≤ 50) :
    (Session.redo^[ms.length] (Session.undo^[ms.length]
        (ms.foldl Session.applyMut ⟨st0, [], -1, n0⟩))).st.annots
      = (ms.foldl Session.applyMut ⟨st0, [], -1, n0⟩).st.annots ∧
    (Session.redo^[ms.length] (Session.undo^[ms.length]
        (ms.foldl Session.applyMut ⟨st0, [], -1, n0⟩))).st.pageRotations
      = (ms.foldl Session.applyMut ⟨st0, [], -1, n0⟩).st.pageRotations ∧
    (Session.redo^[ms.length] (Session.undo^[ms.length]
        (ms.foldl Session.applyMut ⟨st0, [], -1, n0⟩))).st.deletedPages
      = (ms.foldl Session.applyMut ⟨st0, [], -1, n0⟩).st.deletedPages ∧
    (Session.redo^[ms.length] (Session.undo^[ms.length]
        (ms.foldl Session.applyMut ⟨st0, [], -1, n0⟩))).st.pageOrder
      = (ms.foldl Session.applyMut ⟨st0, [], -1, n0⟩).st.pageOrder ∧
    (Session.redo^[ms.length] (Session.undo^[ms.length]
        (ms.foldl Session.applyMut ⟨st0, [], -1, n0⟩))).st.rotation
      = (ms.foldl Session.applyMut ⟨st0, [], -1, n0⟩).st.rotation := by
  have hN : ms.foldl Session.applyMut ⟨st0, [], -1, n0⟩
      = ⟨foldSt st0 n0 ms, entriesOf st0 n0 ms, (ms.length : Int) - 1, foldN n0 ms⟩ := by
    rw [fold_structure ms st0 n0 [] (-1) (by simp) hc (by simpa using hlen)]
    simp
  have hU := undo_spine ms st0 n0 ((foldSt st0 n0 ms).rotation) [] (foldN n0 ms) hc
  rw [List.append_nil] at hU
  have hR := redo_spine ms st0 n0 ((foldSt st0 n0 ms).rotation) [] (foldN n0 ms) hc
  simp only [List.nil_append, List.length_nil, Nat.cast_zero, zero_sub, Nat.zero_add] at hR
  rw [hN]
  rw [show (⟨foldSt st0 n0 ms, entriesOf st0 n0 ms, (ms.length : Int) - 1,
        foldN n0 ms⟩ : Session)
      = ⟨{ foldSt st0 n0 ms with rotation := (foldSt st0 n0 ms).rotation },
          entriesOf st0 n0 ms, (ms.length : Int) - 1, foldN n0 ms⟩ from rfl]
  rw [hU]
  rw [hR]
  exact ⟨rfl, rfl, rfl, rfl, rfl⟩

/-- A freshly loaded three-page document, for the C1 witness. -/
def linSt0 : PDFState := pdfReducer initialState (.load_pdf { name := "doc.pdf" } 3)

/-- A highlight draft on page 2, for the C1 witness. -/
def linDraft : AnnotDraft :=
  { kind := .highlight, pageNumber := 2, x := 10, y := 20,
    width := some 30, height := some 5 }

/-- A committed mutation sequence exercising all eight methods. -/
def linMs : List Mutation :=
  [Mutation.addA linDraft,
   Mutation.updateA 0 { x := some 12 },
   Mutation.rotatePg 2 90,
   Mutation.deletePg 1,
   Mutation.restorePg 1,
   Mutation.reorderPgs 0 2,
   Mutation.setRot 90,
   Mutation.deleteA 0]

/-- Witness for C1 on `linSt0` and `linMs`. -/
theorem history_linearity_witness :
    (allCommit linSt0 0 linMs = true ∧ linMs.length ≤ 50) ∧
    ((Session.redo^[linMs.length] (Session.undo^[linMs.length]
        (linMs.foldl Session.applyMut ⟨linSt0, [], -1, 0⟩))).st.annots
      = (linMs.foldl Session.applyMut ⟨linSt0, [], -1, 0⟩).st.annots ∧
     (Session.redo^[linMs.length] (Session.undo^[linMs.length]
        (linMs.foldl Session.applyMut ⟨linSt0, [], -1, 0⟩))).st.pageRotations
      = (linMs.foldl Session.applyMut ⟨linSt0, [], -1, 0⟩).st.pageRotations ∧
     (Session.redo^[linMs.length] (Session.undo^[linMs.length]
        (linMs.foldl Session.applyMut ⟨linSt0, [], -1, 0⟩))).st.deletedPages
      = (linMs.foldl Session.applyMut ⟨linSt0, [], -1, 0⟩).st.deletedPages ∧
     (Session.redo^[linMs.length] (Session.undo^[linMs.length]
        (linMs.foldl Session.applyMut ⟨linSt0, [], -1, 0⟩))).st.pageOrder
      = (linMs.foldl Session.applyMut ⟨linSt0, [], -1, 0⟩).st.pageOrder ∧
     (Session.redo^[linMs.length] (Session.undo^[linMs.length]
        (linMs.foldl Session.applyMut ⟨linSt0, [], -1, 0⟩))).st.rotation
      = (linMs.foldl Session.applyMut ⟨linSt0, [], -1, 0⟩).st.rotation) :=
  ⟨⟨by decide, by decide⟩, history_linearity linSt0 0 linMs (by decide) (by decide)⟩

end PdfEdit
